import Mathlib

/-!
Verification development for the docnineai-server incremental
documentation engine.

The definitions below are shallow embeddings of the JavaScript source:
  * src/services/diff.service.js      — analyseChanges, mergeAgentOutputs
  * src/services/githubService.js     — recomputeSecurity, stale marking
  * src/agents/security-auditor.agent.js — severity scoring
  * githubApi (computeFileDiff)       — manifest/tree diff
  * src/utils/tokenManager.js         — estimateTokens, chunkText
  * src/services/webhook.service.js   — validateWebhookSignature
  * the global LLM rate-limited queue — sliding-window token ledger

JavaScript objects whose extra fields the embedded code never reads are
modelled with an opaque `data : String` payload; JS `Set` / `Map` are
modelled by lists with the same membership / keyed-lookup semantics.
-/

namespace DocNine

-- ═════════════════════════════════════════════════════════════
-- diff.service.js — mergeAgentOutputs (lines 178-227)
-- ═════════════════════════════════════════════════════════════

/-- A file-tagged agent fact (endpoint, model or component): the merge
    engine reads only the `file` tag; the remaining JS fields are opaque. -/
structure Fact where
  file : String
  data : String
deriving DecidableEq, Repr

/-- A security finding: owning `file`, a `severity` string, rest opaque. -/
structure Finding where
  file : String
  severity : String
  data : String
deriving DecidableEq, Repr

/-- A projectMap entry: role classification keyed by `path`. -/
structure MapEntry where
  path : String
  role : String
deriving DecidableEq, Repr

/-- A relationship fact has no owning-file tag; its payload is opaque. -/
abbrev Relationship := String

/-- The stored aggregate (`project.agentOutputs`). -/
structure AgentOutputs where
  endpoints : List Fact
  models : List Fact
  relationships : List Relationship
  components : List Fact
  findings : List Finding
  projectMap : List MapEntry
deriving DecidableEq, Repr

/-- Fresh partial outputs of an incremental cycle.  In the JS source each
    field may be `undefined`: `mergeAgentOutputs` reads the file-tagged
    lists as `fresh.endpoints || []`, and tests
    `fresh.relationships !== undefined` to decide the all-or-nothing
    relationship replacement, so every field is an `Option`. -/
structure FreshOutputs where
  endpoints : Option (List Fact)
  models : Option (List Fact)
  relationships : Option (List Relationship)
  components : Option (List Fact)
  findings : Option (List Finding)
  projectMap : Option (List MapEntry)
deriving DecidableEq, Repr

/-- diff.service.js `mergeAgentOutputs(stored, fresh, changedFilePaths,
    removedFilePaths)`.  `allDirtyPaths` is a JS `Set` used only through
    `.has`, modelled by list membership on the concatenation. -/
def mergeAgentOutputs (stored : AgentOutputs) (fresh : FreshOutputs)
    (changedFilePaths removedFilePaths : List String) : AgentOutputs :=
  let allDirtyPaths := changedFilePaths ++ removedFilePaths
  { endpoints :=
      stored.endpoints.filter (fun e => !(allDirtyPaths.contains e.file))
        ++ (fresh.endpoints.getD [])
    models :=
      stored.models.filter (fun m => !(allDirtyPaths.contains m.file))
        ++ (fresh.models.getD [])
    relationships :=
      match fresh.relationships with
      | some rs =>
          -- JS: stored.relationships.filter(r => false) ++ fresh list
          stored.relationships.filter (fun _ => false) ++ rs
      | none => stored.relationships
    components :=
      stored.components.filter (fun c => !(allDirtyPaths.contains c.file))
        ++ (fresh.components.getD [])
    findings :=
      stored.findings.filter (fun f => !(allDirtyPaths.contains f.file))
        ++ (fresh.findings.getD [])
    projectMap :=
      stored.projectMap.filter (fun p => !(allDirtyPaths.contains p.path))
        ++ (fresh.projectMap.getD []) }

-- Concrete instances used by the witness theorems below.

/-- A small concrete stored aggregate. -/
def storedDemo : AgentOutputs :=
  { endpoints := [⟨"a.js", "e1"⟩, ⟨"b.js", "e2"⟩]
    models := [⟨"a.js", "m1"⟩, ⟨"c.js", "m2"⟩]
    relationships := ["r0"]
    components := [⟨"c.js", "c1"⟩]
    findings := [⟨"a.js", "HIGH", "f1"⟩, ⟨"b.js", "LOW", "f2"⟩]
    projectMap := [⟨"a.js", "route"⟩, ⟨"b.js", "model"⟩] }

/-- A small concrete fresh stage output for changed file a.js. -/
def freshDemo : FreshOutputs :=
  { endpoints := some [⟨"a.js", "e9"⟩]
    models := some []
    relationships := some ["r1"]
    components := some []
    findings := some [⟨"a.js", "LOW", "f9"⟩]
    projectMap := some [⟨"a.js", "route"⟩] }

-- ═════════════════════════════════════════════════════════════
-- githubService.js — stale marking of user-edited sections
-- (incrementalSync, lines 630-639)
-- ═════════════════════════════════════════════════════════════

/-- A user-edited override entry (`project.editedSections[i]`); the JS
    field `section` is a Lean keyword, rendered `sectionName`. -/
structure EditedSection where
  sectionName : String
  content : String
  stale : Bool
deriving DecidableEq, Repr

/-- githubService.js incrementalSync step 10: when at least one section
    was regenerated, every edited entry whose section is among the
    regenerated ones is flagged stale (the JS spread keeps every other
    field, in particular `content`); other entries are kept as-is.  When
    no section was regenerated the update leaves editedSections alone. -/
def markStaleSections (editedSections : List EditedSection)
    (sectionsRegenerated : List String) : List EditedSection :=
  if 0 < sectionsRegenerated.length then
    editedSections.map (fun es =>
      if sectionsRegenerated.contains es.sectionName then
        { es with stale := true }
      else es)
  else editedSections

/-- Concrete edited sections for the witness: a user edit on the readme
    and one on the API reference. -/
def editedDemo : List EditedSection :=
  [⟨"readme", "my handwritten readme", false⟩,
   ⟨"apiReference", "my api notes", false⟩]

-- ═════════════════════════════════════════════════════════════
-- webhook.service.js — validateWebhookSignature (lines 19-36)
-- ═════════════════════════════════════════════════════════════

/-- webhook.service.js `validateWebhookSignature(payload, signature,
    secret)`.  The HMAC-SHA256 hex digest from node crypto is an external
    collaborator, passed in abstractly; `crypto.timingSafeEqual` throws
    on length mismatch and the catch block turns that into `false`.
    JS `if (!secret) return true`: an undefined or empty secret skips
    validation entirely. -/
def validateWebhookSignature (hmacSha256Hex : String → String → String)
    (payload signatureValue : String) (secret : Option String) : Bool :=
  match secret with
  | none => true
  | some s =>
      if s = "" then true
      else
        let expected := "sha256=" ++ hmacSha256Hex s payload
        if signatureValue.length ≠ expected.length then false
        else signatureValue == expected

-- ═════════════════════════════════════════════════════════════
-- JS Map / string-test helpers shared by analyseChanges and
-- computeFileDiff
-- ═════════════════════════════════════════════════════════════

/-- JS `Map.set`: replace the value of an existing key in place, else
    append a new binding (insertion order, last value wins). -/
def jsMapInsert {α : Type} (m : List (String × α)) (k : String) (v : α) :
    List (String × α) :=
  if m.any (fun p => p.1 == k) then
    m.map (fun p => if p.1 == k then (k, v) else p)
  else m ++ [(k, v)]

/-- JS `new Map(pairs)`. -/
def jsMapOfList {α : Type} (l : List (String × α)) : List (String × α) :=
  l.foldl (fun m p => jsMapInsert m p.1 p.2) []

/-- JS `Map.get`. -/
def jsMapGet {α : Type} (m : List (String × α)) (k : String) : Option α :=
  (m.find? (fun p => p.1 == k)).map (·.2)

/-- JS `Map.has`. -/
def jsMapHas {α : Type} (m : List (String × α)) (k : String) : Bool :=
  m.any (fun p => p.1 == k)

/-- JS `Set.add`: append if not already present. -/
def setAdd (s : List String) (x : String) : List String :=
  if s.contains x then s else s ++ [x]

/-- ASCII lowercasing of one character (paths are ASCII; the JS regex
    `/i` flag is modelled by lowercasing both sides). -/
def lowerChar (c : Char) : Char :=
  if 'A' ≤ c ∧ c ≤ 'Z' then Char.ofNat (c.toNat + 32) else c

/-- The lowercased character list of a string. -/
def lowerStr (s : String) : List Char := s.toList.map lowerChar

/-- A case-insensitive regex `/a|b|.../i` made only of end-anchored
    literal alternatives: does the lowercased path end with one of the
    (lowercase) suffixes? -/
def endsWithOne (path : String) (suffixes : List String) : Bool :=
  suffixes.any (fun suf => suf.toList.isSuffixOf (lowerStr path))

/-- A case-insensitive unanchored regex of literal alternatives: does
    the lowercased path contain one of the (lowercase) needles? -/
def containsOne (path : String) (needles : List String) : Bool :=
  needles.any (fun n =>
    (lowerStr path).tails.any (fun t => n.toList.isPrefixOf t))

/-- A case-insensitive `^`-anchored regex of literal alternatives. -/
def startsWithOne (path : String) (prefixes : List String) : Bool :=
  prefixes.any (fun pre => pre.toList.isPrefixOf (lowerStr path))

-- ═════════════════════════════════════════════════════════════
-- diff.service.js — analyseChanges (lines 22-167)
-- ═════════════════════════════════════════════════════════════

/-- One entry of the changed-file list: {path, status}. -/
structure ChangedFile where
  path : String
  status : String
deriving DecidableEq, Repr

/-- One entry of the stored fileManifest: {path, sha, role}. -/
structure ManifestEntry where
  path : String
  sha : String
  role : String
deriving DecidableEq, Repr

/-- diff.service.js MANIFEST_FILES (lines 40-41):
    `/package\.json$|requirements\.txt$|Cargo\.toml$|go\.mod$|pom\.xml$|composer\.json$|Gemfile$|pyproject\.toml$/i`. -/
def MANIFEST_FILES_test (path : String) : Bool :=
  endsWithOne path
    ["package.json", "requirements.txt", "cargo.toml", "go.mod",
     "pom.xml", "composer.json", "gemfile", "pyproject.toml"]

/-- diff.service.js CODE_EXT (lines 44-45). -/
def CODE_EXT_test (path : String) : Bool :=
  endsWithOne path
    [".js", ".ts", ".jsx", ".tsx", ".py", ".go", ".rs", ".java", ".rb",
     ".php", ".cs", ".cpp", ".c", ".h", ".vue", ".svelte", ".prisma",
     ".graphql", ".sql"]

/-- diff.service.js ROLE_TO_AGENTS (lines 22-37): JS object lookup. -/
def ROLE_TO_AGENTS : String → Option (List String)
  | "route" => some ["apiExtractor", "securityAuditor"]
  | "controller" => some ["apiExtractor", "securityAuditor"]
  | "entry" => some ["apiExtractor", "securityAuditor"]
  | "model" => some ["schemaAnalyser", "securityAuditor"]
  | "schema" => some ["schemaAnalyser", "securityAuditor"]
  | "migration" => some ["schemaAnalyser"]
  | "service" => some ["componentMapper", "securityAuditor"]
  | "middleware" => some ["componentMapper", "securityAuditor"]
  | "utility" => some ["componentMapper", "securityAuditor"]
  | "config" => some ["componentMapper", "securityAuditor"]
  | "helper" => some ["componentMapper", "securityAuditor"]
  | "hook" => some ["componentMapper", "securityAuditor"]
  | "frontend" => some ["componentMapper", "securityAuditor"]
  | "other" => some ["securityAuditor"]
  | _ => none

/-- diff.service.js AGENT_TO_SECTIONS (lines 48-54). -/
def AGENT_TO_SECTIONS : String → Option (List String)
  | "repoScanner" => some []
  | "apiExtractor" => some ["apiReference"]
  | "schemaAnalyser" => some ["schemaDocs"]
  | "componentMapper" => some ["internalDocs"]
  | "securityAuditor" => some ["securityReport"]
  | _ => none

/-- diff.service.js README_TRIGGERS (lines 57-61), a JS Set used only
    through `.has`. -/
def README_TRIGGERS : List String :=
  ["apiExtractor", "schemaAnalyser", "componentMapper"]

/-- diff.service.js inferRoleFromPath (lines 154-167). -/
def inferRoleFromPath (path : String) : String :=
  if containsOne path ["route", "router"] then "route"
  else if containsOne path ["controller", "handler"] then "controller"
  else if containsOne path ["model", "schema", "entity"] then "model"
  else if containsOne path ["migration"] then "migration"
  else if containsOne path ["service"] then "service"
  else if containsOne path ["middleware"] then "middleware"
  else if containsOne path ["util", "helper"] then "utility"
  else if containsOne path ["config", ".env"] then "config"
  else if startsWithOne path
      ["src/index", "src/server", "src/app", "index", "server", "main"]
    then "entry"
  else if endsWithOne path [".test.js", ".test.ts", ".spec.js", ".spec.ts"]
    then "test"
  else "other"

/-- The per-agent file buckets of the analysis result (a JS object with
    exactly these five keys). -/
structure ChangedByAgent where
  repoScanner : List ChangedFile
  apiExtractor : List ChangedFile
  schemaAnalyser : List ChangedFile
  componentMapper : List ChangedFile
  securityAuditor : List ChangedFile
deriving DecidableEq, Repr

/-- JS `result.changedByAgent[agent].push(file)`.  Agent names always
    come from the fixed tables above, so the catch-all is unreachable. -/
def pushAgentFile (cba : ChangedByAgent) (agent : String)
    (f : ChangedFile) : ChangedByAgent :=
  match agent with
  | "repoScanner" => { cba with repoScanner := cba.repoScanner ++ [f] }
  | "apiExtractor" => { cba with apiExtractor := cba.apiExtractor ++ [f] }
  | "schemaAnalyser" =>
      { cba with schemaAnalyser := cba.schemaAnalyser ++ [f] }
  | "componentMapper" =>
      { cba with componentMapper := cba.componentMapper ++ [f] }
  | "securityAuditor" =>
      { cba with securityAuditor := cba.securityAuditor ++ [f] }
  | _ => cba

/-- The analyseChanges result shape (lines 81-95). -/
structure AnalyseResult where
  needsFullRun : Bool
  fullRunReason : Option String
  agentsNeeded : List String
  sectionsAffected : List String
  changedByAgent : ChangedByAgent
  removedFiles : List String
  addedFiles : List String
deriving DecidableEq, Repr

/-- The initial result value (lines 81-95). -/
def analyseInit : AnalyseResult :=
  { needsFullRun := false, fullRunReason := none, agentsNeeded := [],
    sectionsAffected := [], changedByAgent := ⟨[], [], [], [], []⟩,
    removedFiles := [], addedFiles := [] }

/-- JS `stored?.role || inferRoleFromPath(path)` (line 118): an absent
    entry or an empty role string falls back to path inference. -/
def roleOf (stored : Option ManifestEntry) (path : String) : String :=
  match stored with
  | some s => if s.role = "" then inferRoleFromPath path else s.role
  | none => inferRoleFromPath path

/-- The loop body of analyseChanges for one non-manifest file
    (lines 107-139). -/
def processChangedFile (manifestMap : List (String × ManifestEntry))
    (acc : AnalyseResult) (f : ChangedFile) : AnalyseResult :=
  let acc := if f.status = "removed" then
      { acc with removedFiles := acc.removedFiles ++ [f.path] }
    else acc
  let acc := if f.status = "added" then
      { acc with addedFiles := acc.addedFiles ++ [f.path] }
    else acc
  let stored := jsMapGet manifestMap f.path
  let role := roleOf stored f.path
  let agents := match ROLE_TO_AGENTS role with
    | some l => l
    | none => if CODE_EXT_test f.path then ["securityAuditor"] else []
  let acc := if f.status ≠ "removed" then
      { acc with
          agentsNeeded := setAdd acc.agentsNeeded "repoScanner",
          changedByAgent :=
            pushAgentFile acc.changedByAgent "repoScanner" f }
    else acc
  agents.foldl (fun a agent =>
    let a2 := { a with
        agentsNeeded := setAdd a.agentsNeeded agent,
        changedByAgent := pushAgentFile a.changedByAgent agent f }
    ((AGENT_TO_SECTIONS agent).getD []).foldl
      (fun a3 sec =>
        { a3 with sectionsAffected := setAdd a3.sectionsAffected sec })
      a2) acc

/-- The analyseChanges file loop (lines 97-140): the first manifest file
    returns from the whole function with the full-run flag and reason. -/
def analyseLoop (manifestMap : List (String × ManifestEntry)) :
    List ChangedFile → AnalyseResult → AnalyseResult
  | [], acc => acc
  | f :: rest, acc =>
      if MANIFEST_FILES_test f.path then
        { acc with
            needsFullRun := true,
            fullRunReason :=
              some ("Structural manifest file changed: " ++ f.path) }
      else analyseLoop manifestMap rest (processChangedFile manifestMap acc f)

/-- diff.service.js analyseChanges (lines 76-151).  The JS early return
    skips the README step; the needsFullRun flag is set only there, so it
    identifies the early exit exactly. -/
def analyseChanges (changedFiles : List ChangedFile)
    (fileManifest : List ManifestEntry) : AnalyseResult :=
  let manifestMap := jsMapOfList (fileManifest.map (fun f => (f.path, f)))
  let r := analyseLoop manifestMap changedFiles analyseInit
  if r.needsFullRun then r
  else if r.agentsNeeded.any (fun a => README_TRIGGERS.contains a) then
    { r with sectionsAffected := setAdd r.sectionsAffected "readme" }
  else r

/-- Concrete changed-file list for the C7 witness: a code change plus a
    manifest file. -/
def changedDemo : List ChangedFile :=
  [⟨"src/app.js", "modified"⟩, ⟨"package.json", "modified"⟩]

-- ═════════════════════════════════════════════════════════════
-- GitHub API client — computeFileDiff (src/unnamed/part_013,
-- lines 116-151)
-- ═════════════════════════════════════════════════════════════

/-- One blob of the fresh GitHub tree: {path, sha, size}. -/
structure TreeFile where
  path : String
  sha : String
  size : Nat
deriving DecidableEq, Repr

/-- SKIP_EXT (part_013 lines 21-22): binary or lock-file extensions. -/
def SKIP_EXT_test (path : String) : Bool :=
  endsWithOne path
    [".png", ".jpg", ".jpeg", ".gif", ".svg", ".ico", ".woff", ".woff2",
     ".ttf", ".eot", ".pdf", ".zip", ".tar", ".gz", ".mp4", ".mp3",
     ".bin", ".exe", ".dll", ".so", ".dylib", ".lock"]

/-- MAX_KB: `parseInt(process.env.MAX_FILE_SIZE_KB || "50")`, the
    default configuration. -/
def MAX_KB : Nat := 50

/-- An added or modified diff entry: {path, sha, status}. -/
structure AddedEntry where
  path : String
  sha : String
  status : String
deriving DecidableEq, Repr

/-- A removed diff entry: {path, status}. -/
structure RemovedEntry where
  path : String
  status : String
deriving DecidableEq, Repr

/-- An unchanged diff entry: {path}. -/
structure UnchangedEntry where
  path : String
deriving DecidableEq, Repr

/-- The computeFileDiff result. -/
structure FileDiff where
  added : List AddedEntry
  modified : List AddedEntry
  removed : List RemovedEntry
  unchanged : List UnchangedEntry
  currentTree : List TreeFile
deriving DecidableEq, Repr

/-- `eligible = currentTree.filter(f => !SKIP_EXT.test(f.path)
    && f.size < MAX_KB * 1024)` (lines 118-120). -/
def eligibleFiles (currentTree : List TreeFile) : List TreeFile :=
  currentTree.filter
    (fun f => !(SKIP_EXT_test f.path) && decide (f.size < MAX_KB * 1024))

/-- `manifestMap = new Map(storedManifest.map(f => [f.path, f]))`. -/
def diffManifestMap (storedManifest : List ManifestEntry) :
    List (String × ManifestEntry) :=
  jsMapOfList (storedManifest.map (fun f => (f.path, f)))

/-- `currentMap = new Map(eligible.map(f => [f.path, f]))`. -/
def diffCurrentMap (currentTree : List TreeFile) :
    List (String × TreeFile) :=
  jsMapOfList ((eligibleFiles currentTree).map (fun f => (f.path, f)))

/-- The body of the first computeFileDiff loop (lines 132-141): route
    one current-map entry into added / modified / unchanged. -/
def classifyStep (manifestMap : List (String × ManifestEntry))
    (acc : List AddedEntry × List AddedEntry × List UnchangedEntry)
    (pc : String × TreeFile) :
    List AddedEntry × List AddedEntry × List UnchangedEntry :=
  match jsMapGet manifestMap pc.1 with
  | none => (acc.1 ++ [⟨pc.1, pc.2.sha, "added"⟩], acc.2.1, acc.2.2)
  | some stored =>
      if stored.sha ≠ pc.2.sha then
        (acc.1, acc.2.1 ++ [⟨pc.1, pc.2.sha, "modified"⟩], acc.2.2)
      else (acc.1, acc.2.1, acc.2.2 ++ [⟨pc.1⟩])

/-- computeFileDiff (part_013 lines 116-151) minus the network fetch:
    the fresh tree is a parameter instead of the getFileTreeWithSha
    result. -/
def computeFileDiff (storedManifest : List ManifestEntry)
    (currentTree : List TreeFile) : FileDiff :=
  let eligible := eligibleFiles currentTree
  let manifestMap := diffManifestMap storedManifest
  let currentMap := diffCurrentMap currentTree
  let classified := currentMap.foldl (classifyStep manifestMap) ([], [], [])
  let removed := manifestMap.foldl
    (fun acc pm =>
      if jsMapHas currentMap pm.1 then acc
      else acc ++ [(⟨pm.1, "removed"⟩ : RemovedEntry)]) []
  { added := classified.1, modified := classified.2.1,
    removed := removed, unchanged := classified.2.2,
    currentTree := eligible }

/-- The stored manifest of the spec scenario: {a.js: h1, b.js: h2}. -/
def scenarioManifest : List ManifestEntry :=
  [⟨"a.js", "h1", "other"⟩, ⟨"b.js", "h2", "other"⟩]

/-- The fresh tree of the spec scenario:
    {a.js: h1, b.js: h3, c.js: h4}. -/
def scenarioTree : List TreeFile :=
  [⟨"a.js", "h1", 10⟩, ⟨"b.js", "h3", 10⟩, ⟨"c.js", "h4", 10⟩]

-- ═════════════════════════════════════════════════════════════
-- Security scoring:
--   security-auditor.agent.js lines 105 and 178-197 (from-scratch)
--   githubService.js recomputeSecurity, lines 767-787 (incremental)
-- ═════════════════════════════════════════════════════════════

/-- security-auditor.agent.js line 105:
    `SEVERITY_WEIGHT = { CRITICAL: 25, HIGH: 15, MEDIUM: 7, LOW: 2 }`,
    a JS object lookup (undefined for any other key). -/
def SEVERITY_WEIGHT : String → Option Int
  | "CRITICAL" => some 25
  | "HIGH" => some 15
  | "MEDIUM" => some 7
  | "LOW" => some 2
  | _ => none

/-- githubService.js recomputeSecurity line 768: its own local
    `WEIGHT = { CRITICAL: 25, HIGH: 15, MEDIUM: 7, LOW: 2 }`. -/
def WEIGHT : String → Option Int
  | "CRITICAL" => some 25
  | "HIGH" => some 15
  | "MEDIUM" => some 7
  | "LOW" => some 2
  | _ => none

/-- Agent deduction (line 179-182):
    `allFindings.reduce((s, f) => s + (SEVERITY_WEIGHT[f.severity] || 2), 0)`
    — an unknown severity deducts 2. -/
def agentDeduction (findings : List Finding) : Int :=
  findings.foldl (fun s f => s + ((SEVERITY_WEIGHT f.severity).getD 2)) 0

/-- Recompute deduction (lines 770-775):
    `deduction += WEIGHT[f.severity] || 0`
    — an unknown severity deducts 0. -/
def recomputeDeduction (findings : List Finding) : Int :=
  findings.foldl (fun s f => s + ((WEIGHT f.severity).getD 0)) 0

/-- `score = Math.max(0, 100 - deduction)` of the agent (line 183). -/
def agentScore (findings : List Finding) : Int :=
  max 0 (100 - agentDeduction findings)

/-- `score = Math.max(0, 100 - deduction)` of recomputeSecurity (777). -/
def recomputeScore (findings : List Finding) : Int :=
  max 0 (100 - recomputeDeduction findings)

/-- The grade ladder, textually identical in both sources
    (agent lines 184-193, recomputeSecurity lines 778-787). -/
def gradeOf (score : Int) : String :=
  if score ≥ 90 then "A"
  else if score ≥ 75 then "B"
  else if score ≥ 60 then "C"
  else if score ≥ 40 then "D"
  else "F"

/-- JS object read `m[k]`: value of the first binding for the key. -/
def jsObjGet (m : List (String × Nat)) (k : String) : Option Nat :=
  (m.find? (fun p => p.1 == k)).map (·.2)

/-- JS object write `m[k] = v`: update the existing binding in place or
    append a new one. -/
def jsObjSet (m : List (String × Nat)) (k : String) (v : Nat) :
    List (String × Nat) :=
  if m.any (fun p => p.1 == k) then
    m.map (fun p => if p.1 == k then (k, v) else p)
  else m ++ [(k, v)]

/-- JS `counts[k] = (counts[k] || 0) + 1`. -/
def jsObjIncr (m : List (String × Nat)) (k : String) : List (String × Nat) :=
  jsObjSet m k ((jsObjGet m k).getD 0 + 1)

/-- Agent counts (lines 194-197): start from the four zeroed keys, then
    `counts[f.severity] = (counts[f.severity] || 0) + 1` per finding. -/
def agentCounts (findings : List Finding) : List (String × Nat) :=
  findings.foldl (fun m f => jsObjIncr m f.severity)
    [("CRITICAL", 0), ("HIGH", 0), ("MEDIUM", 0), ("LOW", 0)]

/-- Recompute counts (lines 769-773): the identical loop in
    recomputeSecurity. -/
def recomputeCounts (findings : List Finding) : List (String × Nat) :=
  findings.foldl (fun m f => jsObjIncr m f.severity)
    [("CRITICAL", 0), ("HIGH", 0), ("MEDIUM", 0), ("LOW", 0)]

/-- A finding whose severity is outside the four known values. -/
def weirdFinding : Finding := ⟨"auth.js", "INFO", "x"⟩

/-- Concrete findings with known severities for the C3 witness. -/
def knownFindings : List Finding :=
  [⟨"auth.js", "CRITICAL", "x"⟩, ⟨"db.js", "LOW", "y"⟩]

-- ═════════════════════════════════════════════════════════════
-- Global LLM rate-limited queue (src/unnamed/part_008, lines 272-407)
-- ═════════════════════════════════════════════════════════════

/-- TPM_LIMIT = 5000 (line 303). -/
def TPM_LIMIT : Nat := 5000

/-- TPM_WINDOW_MS = 62000 (line 304). -/
def TPM_WINDOW_MS : Nat := 62000

/-- One ledger entry `{ tokens, ts }` of the sliding-window token
    tracker (line 309). -/
structure LedgerEntry where
  tokens : Nat
  ts : Nat
deriving DecidableEq, Repr

/-- tokensUsedInWindow (lines 311-317): evict entries older than the
    62 s cutoff, sum the rest.  Entries are appended with the current
    clock, so the log is sorted by timestamp and the front-eviction of
    the source equals filtering by the cutoff. -/
def tokensUsedInWindow (now : Nat) (tokenLog : List LedgerEntry) : Nat :=
  ((tokenLog.filter (fun e => decide (now - TPM_WINDOW_MS ≤ e.ts))).map
    (fun e => e.tokens)).sum

/-- The scan of msUntilCapacity (lines 329-337): skip expired entries,
    accumulate freed tokens, and return the padded expiry of the first
    entry whose release makes room; JS `Math.max(0, expiresAt - now + 200)`
    is computed over integers. -/
def msUntilCapacityGo (total cutoff now needed : Nat) :
    List LedgerEntry → Nat → Nat
  | [], _ => 0
  | e :: rest, freed =>
      if e.ts < cutoff then msUntilCapacityGo total cutoff now needed rest freed
      else
        let freed2 := freed + e.tokens
        if total - freed2 + needed ≤ TPM_LIMIT then
          (max 0 ((e.ts : Int) + (TPM_WINDOW_MS : Int)
            - (now : Int) + 200)).toNat
        else msUntilCapacityGo total cutoff now needed rest freed2

/-- msUntilCapacity (lines 323-338). -/
def msUntilCapacity (now : Nat) (tokenLog : List LedgerEntry)
    (needed : Nat) : Nat :=
  msUntilCapacityGo (tokensUsedInWindow now tokenLog)
    (now - TPM_WINDOW_MS) now needed tokenLog 0

/-- estimateTokens of the arbiter (lines 343-345):
    `Math.ceil((systemPrompt.length + userContent.length) / 3.5)`. -/
def estimateTokensArb (systemPromptLen userContentLen : Nat) : Nat :=
  (2 * (systemPromptLen + userContentLen) + 6) / 7

/-- Operational model of the serialized executeCall queue
    (lines 349-407).  A state is the clock and the ledger.  A `call`
    step is one executeCall: the while loop (lines 374-384) exits only
    when `tokensUsedInWindow() + estimatedTotal <= TPM_LIMIT`, so the
    guard holds at the admission instant `tAdmit`; the network call then
    finishes at `tRec >= tAdmit` and `recordTokens` appends the actual
    cost (`response.usage?.total_tokens || estimatedTotal`, line 398)
    with the current timestamp.  The relation `ok actual est` constrains
    recorded versus estimated cost: the external service may report any
    usage, so the general behaviour is `fun _ _ => True`, while
    `fun a e => a ≤ e` describes runs whose reported usage never
    exceeds the estimate. -/
inductive ArbTrace (ok : Nat → Nat → Prop) :
    Nat → List LedgerEntry → Prop
  | init : ArbTrace ok 0 []
  | wait {now log} (t : Nat) :
      ArbTrace ok now log → now ≤ t → ArbTrace ok t log
  | call {now log} (est actual tAdmit tRec : Nat) :
      ArbTrace ok now log →
      now ≤ tAdmit → tAdmit ≤ tRec →
      tokensUsedInWindow tAdmit log + est ≤ TPM_LIMIT →
      ok actual est →
      ArbTrace ok tRec (log ++ [⟨actual, tRec⟩])

-- ═════════════════════════════════════════════════════════════
-- tokenManager.js — estimateTokens, chunkText (lines 13-37)
-- ═════════════════════════════════════════════════════════════

/-- JS strings are modelled as char lists here: the token manager only
    splits on newline, joins with newline and takes lengths. -/
abbrev Text := List Char

def newline : Char := '\n'

/-- tokenManager.js `estimateTokens`: Math.ceil(text.length / 4). -/
def estimateTokens (text : Text) : Nat := (text.length + 3) / 4

/-- JS `text.split("\n")`: always at least one (possibly empty) segment. -/
def splitNl : Text → List Text
  | [] => [[]]
  | c :: cs =>
      if c = newline then [] :: splitNl cs
      else
        match splitNl cs with
        | [] => [[c]]        -- unreachable: splitNl never returns []
        | seg :: segs => (c :: seg) :: segs

/-- JS `segments.join("\n")`. -/
def joinNl : List Text → Text
  | [] => []
  | [s] => s
  | s :: s2 :: rest => s ++ newline :: joinNl (s2 :: rest)

/-- The loop of tokenManager.js `chunkText`.  The JS source pushes
    `current.join("\n")` at each flush; here the raw line groups are
    accumulated and joined once at the end of `chunkText`, which yields
    the same chunk strings.  Arguments: remaining lines, the `current`
    group in order, its running `tokenCount`. -/
def chunkLoop (maxTokens : Nat) :
    List Text → List Text → Nat → List (List Text)
  | [], current, _ => if 0 < current.length then [current] else []
  | line :: rest, current, tokenCount =>
      let lineTokens := estimateTokens line
      if tokenCount + lineTokens > maxTokens ∧ 0 < current.length then
        current :: chunkLoop maxTokens rest [line] lineTokens
      else
        chunkLoop maxTokens rest (current ++ [line]) (tokenCount + lineTokens)

/-- tokenManager.js `chunkText(text, maxTokens)`. -/
def chunkText (text : Text) (maxTokens : Nat) : List Text :=
  (chunkLoop maxTokens (splitNl text) [] 0).map joinNl

/-- Concrete input for the C9 witness. -/
def chunkDemoText : Text := "ab\ncd\nef".toList

end DocNine

namespace DocNine

-- ═════════════════════════════════════════════════════════════
-- Theorems
-- ═════════════════════════════════════════════════════════════

/-- Helper: list `contains` agrees with membership for strings. -/
theorem contains_iff_mem (l : List String) (a : String) :
    l.contains a = true ↔ a ∈ l := by
  simp [List.contains]

/-- C1: after `mergeAgentOutputs`, every endpoint, model, component,
    finding and projectMap entry whose file tag (path for projectMap) is
    in the union of the changed and removed sets is a member of the fresh
    output lists: no stored fact for a dirty file survives, every fact
    for such a file comes from the fresh output. -/
theorem merge_dirty_facts_only_from_fresh
    (stored : AgentOutputs) (fresh : FreshOutputs)
    (changed removed : List String) :
    (∀ e, e ∈ (mergeAgentOutputs stored fresh changed removed).endpoints →
        e.file ∈ changed ++ removed → e ∈ fresh.endpoints.getD []) ∧
    (∀ m, m ∈ (mergeAgentOutputs stored fresh changed removed).models →
        m.file ∈ changed ++ removed → m ∈ fresh.models.getD []) ∧
    (∀ c, c ∈ (mergeAgentOutputs stored fresh changed removed).components →
        c.file ∈ changed ++ removed → c ∈ fresh.components.getD []) ∧
    (∀ f, f ∈ (mergeAgentOutputs stored fresh changed removed).findings →
        f.file ∈ changed ++ removed → f ∈ fresh.findings.getD []) ∧
    (∀ p, p ∈ (mergeAgentOutputs stored fresh changed removed).projectMap →
        p.path ∈ changed ++ removed → p ∈ fresh.projectMap.getD []) := by
  refine ⟨?_, ?_, ?_, ?_, ?_⟩ <;>
    · intro x hx hdirty
      simp only [mergeAgentOutputs, List.mem_append, List.mem_filter,
        Bool.not_eq_true'] at hx
      rcases hx with ⟨_, hkeep⟩ | hfresh
      · have hc := (contains_iff_mem (changed ++ removed) _).mpr hdirty
        rw [hkeep] at hc
        simp at hc
      · exact hfresh

/-- Witness for C1 at a concrete merge: the fresh endpoint tagged with
    the changed file a.js is traced back to the fresh output. -/
theorem merge_dirty_facts_only_from_fresh_witness :
    (⟨"a.js", "e9"⟩ : Fact) ∈ freshDemo.endpoints.getD [] :=
  (merge_dirty_facts_only_from_fresh storedDemo freshDemo ["a.js"] []).1
    ⟨"a.js", "e9"⟩ (by decide) (by decide)

/-- Helper: filtering twice with the same predicate changes nothing. -/
theorem filter_idem {α : Type} (p : α → Bool) (l : List α) :
    (l.filter p).filter p = l.filter p := by
  induction l with
  | nil => rfl
  | cons a t ih => cases hpa : p a <;> simp [List.filter_cons, hpa, ih]

/-- Helper: a filter that rejects every element yields the empty list. -/
theorem filter_eq_nil_of {α : Type} (p : α → Bool) (l : List α)
    (h : ∀ x ∈ l, p x = false) : l.filter p = [] := by
  induction l with
  | nil => rfl
  | cons a t ih =>
      simp [List.filter_cons, h a (by simp),
        ih (fun x hx => h x (by simp [hx]))]

/-- Helper: appending only rejected elements to an already-filtered list
    leaves its filtration unchanged. -/
theorem merge_frame_aux {α : Type} (p : α → Bool) (A B : List α)
    (hB : ∀ x ∈ B, p x = false) :
    (A.filter p ++ B).filter p = A.filter p := by
  rw [List.filter_append, filter_idem, filter_eq_nil_of p B hB,
    List.append_nil]

/-- C6: frame property of the merge.  For every fact kind, the stored
    facts whose file tag is outside the changed-and-removed union appear
    in the merged aggregate unmodified and in their original relative
    order (a sublist), and — given that every fresh fact is tagged with a
    changed or removed file, which the agents guarantee — the clean-file
    facts of the merged aggregate are exactly the clean-file facts of the
    stored aggregate: none altered, dropped or duplicated. -/
theorem merge_preserves_untouched_facts
    (stored : AgentOutputs) (fresh : FreshOutputs)
    (changed removed : List String)
    (hend : ∀ e ∈ fresh.endpoints.getD [], e.file ∈ changed ++ removed)
    (hmod : ∀ m ∈ fresh.models.getD [], m.file ∈ changed ++ removed)
    (hcomp : ∀ c ∈ fresh.components.getD [], c.file ∈ changed ++ removed)
    (hfind : ∀ f ∈ fresh.findings.getD [], f.file ∈ changed ++ removed)
    (hmap : ∀ p ∈ fresh.projectMap.getD [], p.path ∈ changed ++ removed) :
    ((stored.endpoints.filter
        (fun e => !((changed ++ removed).contains e.file))).Sublist
          (mergeAgentOutputs stored fresh changed removed).endpoints ∧
      (mergeAgentOutputs stored fresh changed removed).endpoints.filter
          (fun e => !((changed ++ removed).contains e.file))
        = stored.endpoints.filter
            (fun e => !((changed ++ removed).contains e.file))) ∧
    ((stored.models.filter
        (fun m => !((changed ++ removed).contains m.file))).Sublist
          (mergeAgentOutputs stored fresh changed removed).models ∧
      (mergeAgentOutputs stored fresh changed removed).models.filter
          (fun m => !((changed ++ removed).contains m.file))
        = stored.models.filter
            (fun m => !((changed ++ removed).contains m.file))) ∧
    ((stored.components.filter
        (fun c => !((changed ++ removed).contains c.file))).Sublist
          (mergeAgentOutputs stored fresh changed removed).components ∧
      (mergeAgentOutputs stored fresh changed removed).components.filter
          (fun c => !((changed ++ removed).contains c.file))
        = stored.components.filter
            (fun c => !((changed ++ removed).contains c.file))) ∧
    ((stored.findings.filter
        (fun f => !((changed ++ removed).contains f.file))).Sublist
          (mergeAgentOutputs stored fresh changed removed).findings ∧
      (mergeAgentOutputs stored fresh changed removed).findings.filter
          (fun f => !((changed ++ removed).contains f.file))
        = stored.findings.filter
            (fun f => !((changed ++ removed).contains f.file))) ∧
    ((stored.projectMap.filter
        (fun p => !((changed ++ removed).contains p.path))).Sublist
          (mergeAgentOutputs stored fresh changed removed).projectMap ∧
      (mergeAgentOutputs stored fresh changed removed).projectMap.filter
          (fun p => !((changed ++ removed).contains p.path))
        = stored.projectMap.filter
            (fun p => !((changed ++ removed).contains p.path))) := by
  refine ⟨⟨?_, ?_⟩, ⟨?_, ?_⟩, ⟨?_, ?_⟩, ⟨?_, ?_⟩, ⟨?_, ?_⟩⟩
  case _ => exact List.sublist_append_left _ _
  case _ =>
    exact merge_frame_aux _ _ _ (fun x hx => by
      rw [(contains_iff_mem (changed ++ removed) x.file).mpr (hend x hx)]
      rfl)
  case _ => exact List.sublist_append_left _ _
  case _ =>
    exact merge_frame_aux _ _ _ (fun x hx => by
      rw [(contains_iff_mem (changed ++ removed) x.file).mpr (hmod x hx)]
      rfl)
  case _ => exact List.sublist_append_left _ _
  case _ =>
    exact merge_frame_aux _ _ _ (fun x hx => by
      rw [(contains_iff_mem (changed ++ removed) x.file).mpr (hcomp x hx)]
      rfl)
  case _ => exact List.sublist_append_left _ _
  case _ =>
    exact merge_frame_aux _ _ _ (fun x hx => by
      rw [(contains_iff_mem (changed ++ removed) x.file).mpr (hfind x hx)]
      rfl)
  case _ => exact List.sublist_append_left _ _
  case _ =>
    exact merge_frame_aux _ _ _ (fun x hx => by
      rw [(contains_iff_mem (changed ++ removed) x.path).mpr (hmap x hx)]
      rfl)

/-- Witness for C6 at a concrete merge: the untouched-file endpoint
    facts survive in order in the merged aggregate. -/
theorem merge_preserves_untouched_facts_witness :
    (storedDemo.endpoints.filter
      (fun e => !((["a.js"] ++ ([] : List String)).contains e.file))).Sublist
        (mergeAgentOutputs storedDemo freshDemo ["a.js"] []).endpoints :=
  (merge_preserves_untouched_facts storedDemo freshDemo ["a.js"] []
    (by decide) (by decide) (by decide) (by decide) (by decide)).1.1

/-- C5: relationships are all-or-nothing: when the fresh output defines a
    relationship list (the schema stage ran) the merged relationships are
    exactly the fresh list with no stored relationship surviving, and
    when it is undefined the stored list is kept verbatim. -/
theorem merge_relationships_all_or_nothing
    (stored : AgentOutputs) (fresh : FreshOutputs)
    (changed removed : List String) :
    (∀ rs, fresh.relationships = some rs →
        (mergeAgentOutputs stored fresh changed removed).relationships = rs) ∧
    (fresh.relationships = none →
        (mergeAgentOutputs stored fresh changed removed).relationships
          = stored.relationships) := by
  constructor
  · intro rs hrs
    simp [mergeAgentOutputs, hrs]
  · intro hnone
    simp [mergeAgentOutputs, hnone]

/-- Witness for C5 at a concrete merge: the schema stage ran, the merged
    relationship set is exactly the fresh one. -/
theorem merge_relationships_all_or_nothing_witness :
    (mergeAgentOutputs storedDemo freshDemo ["a.js"] []).relationships
      = ["r1"] :=
  (merge_relationships_all_or_nothing storedDemo freshDemo ["a.js"] []).1
    ["r1"] rfl

/-- C8: stale marking.  The editedSections update maps each entry to a
    stale-flagged copy exactly when its section was regenerated, and
    entrywise: a regenerated section with a user edit keeps its content
    and gets stale = true, while an entry for a section that was not
    regenerated is returned unchanged (same content, same stale flag). -/
theorem mark_stale_preserves_user_edits
    (es : List EditedSection) (reg : List String) :
    markStaleSections es reg
      = es.map (fun e =>
          if e.sectionName ∈ reg then { e with stale := true } else e) ∧
    (∀ i (h : i < es.length)
        (hl : i < (markStaleSections es reg).length),
      ((es.get ⟨i, h⟩).sectionName ∈ reg →
          ((markStaleSections es reg).get ⟨i, hl⟩).content
              = (es.get ⟨i, h⟩).content ∧
            ((markStaleSections es reg).get ⟨i, hl⟩).stale = true) ∧
      ((es.get ⟨i, h⟩).sectionName ∉ reg →
          (markStaleSections es reg).get ⟨i, hl⟩ = es.get ⟨i, h⟩)) := by
  have hfun : ∀ e : EditedSection,
      (if reg.contains e.sectionName then { e with stale := true } else e)
        = (if e.sectionName ∈ reg then { e with stale := true } else e) := by
    intro e
    by_cases hm : e.sectionName ∈ reg
    · rw [if_pos hm, if_pos ((contains_iff_mem _ _).mpr hm)]
    · rw [if_neg hm, if_neg]
      intro hc
      exact hm ((contains_iff_mem _ _).mp hc)
  have hmain : markStaleSections es reg
      = es.map (fun e =>
          if e.sectionName ∈ reg then { e with stale := true } else e) := by
    unfold markStaleSections
    by_cases hreg : 0 < reg.length
    · rw [if_pos hreg]
      simp only [hfun]
    · rw [if_neg hreg]
      have : reg = [] := List.length_eq_zero.mp (Nat.eq_zero_of_not_pos hreg)
      subst this
      simp
  refine ⟨hmain, ?_⟩
  intro i h hl
  have hget : (markStaleSections es reg).get ⟨i, hl⟩
      = (if (es.get ⟨i, h⟩).sectionName ∈ reg
          then { es.get ⟨i, h⟩ with stale := true } else es.get ⟨i, h⟩) := by
    simp only [List.get_eq_getElem, hmain, List.getElem_map]
  constructor
  · intro hin
    rw [hget, if_pos hin]
    exact ⟨rfl, rfl⟩
  · intro hnin
    rw [hget, if_neg hnin]

/-- Witness for C8: with a user-edited readme and a regenerated readme
    section, the entry keeps its content and is flagged stale. -/
theorem mark_stale_preserves_user_edits_witness :
    ((markStaleSections editedDemo ["readme"]).get
        ⟨0, by decide⟩).content = "my handwritten readme" ∧
      ((markStaleSections editedDemo ["readme"]).get
        ⟨0, by decide⟩).stale = true :=
  ((mark_stale_preserves_user_edits editedDemo ["readme"]).2
    0 (by decide) (by decide)).1 (by decide)

/-- Helper: splitNl never returns the empty segment list. -/
theorem splitNl_ne_nil (t : Text) : splitNl t ≠ [] := by
  cases t with
  | nil => simp [splitNl]
  | cons c cs =>
      by_cases hc : c = newline
      · simp [splitNl, hc]
      · simp only [splitNl, if_neg hc]
        cases hsp : splitNl cs with
        | nil => simp
        | cons seg segs => simp

/-- Helper: joinNl pulls a leading character out of the first segment. -/
theorem joinNl_cons (c : Char) (s : Text) (segs : List Text) :
    joinNl ((c :: s) :: segs) = c :: joinNl (s :: segs) := by
  cases segs with
  | nil => rfl
  | cons s2 rest => simp [joinNl]

/-- Helper: joining the newline-split segments restores the text. -/
theorem joinNl_splitNl (t : Text) : joinNl (splitNl t) = t := by
  induction t with
  | nil => rfl
  | cons c cs ih =>
      by_cases hc : c = newline
      · subst hc
        have hs : splitNl (newline :: cs) = [] :: splitNl cs := by
          simp [splitNl]
        rw [hs]
        cases hsp : splitNl cs with
        | nil => exact absurd hsp (splitNl_ne_nil cs)
        | cons seg segs =>
            have hstep : joinNl ([] :: seg :: segs)
                = newline :: joinNl (seg :: segs) := by
              simp [joinNl]
            rw [hstep, ← hsp, ih]
      · simp only [splitNl, if_neg hc]
        cases hsp : splitNl cs with
        | nil => exact absurd hsp (splitNl_ne_nil cs)
        | cons seg segs => rw [joinNl_cons, ← hsp, ih]

/-- Helper: the chunk loop partitions the line list: concatenating the
    produced groups gives back the pending lines after the current group. -/
theorem chunkLoop_join (k : Nat) (lines : List Text) :
    ∀ current tc, (chunkLoop k lines current tc).flatten = current ++ lines := by
  induction lines with
  | nil =>
      intro current tc
      cases current with
      | nil => simp [chunkLoop]
      | cons a b => simp [chunkLoop]
  | cons line rest ih =>
      intro current tc
      by_cases h : tc + estimateTokens line > k ∧ 0 < current.length
      · simp [chunkLoop, h, ih]
      · simp [chunkLoop, h, ih]

/-- Helper: every group the chunk loop emits is non-empty. -/
theorem chunkLoop_groups (k : Nat) (lines : List Text) :
    ∀ current tc g, g ∈ chunkLoop k lines current tc → g ≠ [] := by
  induction lines with
  | nil =>
      intro current tc g hg
      cases current with
      | nil => simp [chunkLoop] at hg
      | cons a b =>
          simp [chunkLoop] at hg
          subst hg
          simp
  | cons line rest ih =>
      intro current tc g hg
      by_cases h : tc + estimateTokens line > k ∧ 0 < current.length
      · simp [chunkLoop, h] at hg
        rcases hg with rfl | hg
        · intro hnil
          rw [hnil] at h
          simp at h
        · exact ih _ _ _ hg
      · simp [chunkLoop, h] at hg
        exact ih _ _ _ hg

/-- Helper: joinNl distributes over append of non-empty segment lists. -/
theorem joinNl_append (a b : List Text) (ha : a ≠ []) (hb : b ≠ []) :
    joinNl (a ++ b) = joinNl a ++ newline :: joinNl b := by
  induction a with
  | nil => exact absurd rfl ha
  | cons x a2 ih =>
      cases a2 with
      | nil =>
          cases b with
          | nil => exact absurd rfl hb
          | cons y b2 => simp [joinNl]
      | cons x2 a3 =>
          have hrec := ih (by simp)
          calc joinNl ((x :: x2 :: a3) ++ b)
              = x ++ newline :: joinNl ((x2 :: a3) ++ b) := by
                simp [joinNl]
            _ = x ++ newline
                  :: (joinNl (x2 :: a3) ++ newline :: joinNl b) := by
                rw [hrec]
            _ = (x ++ newline :: joinNl (x2 :: a3))
                  ++ newline :: joinNl b := by simp
            _ = joinNl (x :: x2 :: a3) ++ newline :: joinNl b := by
                simp [joinNl]

/-- Helper: joining per-group-joined chunks equals joining the flattened
    line list, provided every group is non-empty. -/
theorem joinNl_map_join (gs : List (List Text))
    (h : ∀ g ∈ gs, g ≠ []) :
    joinNl (gs.map joinNl) = joinNl gs.flatten := by
  induction gs with
  | nil => rfl
  | cons g rest ih =>
      cases rest with
      | nil => simp [joinNl]
      | cons g2 rest2 =>
          have hg : g ≠ [] := h g (by simp)
          have hjoin : (g2 :: rest2).flatten ≠ [] := by
            have hg2 : g2 ≠ [] := h g2 (by simp)
            cases g2 with
            | nil => exact absurd rfl hg2
            | cons a b => simp
          calc joinNl ((g :: g2 :: rest2).map joinNl)
              = joinNl g ++ newline
                  :: joinNl ((g2 :: rest2).map joinNl) := by
                simp [joinNl]
            _ = joinNl g ++ newline :: joinNl ((g2 :: rest2).flatten) := by
                rw [ih (fun x hx => h x (by simp [hx]))]
            _ = joinNl (g ++ (g2 :: rest2).flatten) :=
                (joinNl_append _ _ hg hjoin).symm
            _ = joinNl ((g :: g2 :: rest2).flatten) := by simp

/-- C9: chunkText is a lossless, order-preserving partition of the input
    lines: joining the chunks with a single newline restores the input
    exactly, for every positive chunk-size bound. -/
theorem chunkText_lossless (text : Text) (maxTokens : Nat)
    (hpos : 0 < maxTokens) :
    joinNl (chunkText text maxTokens) = text := by
  unfold chunkText
  rw [joinNl_map_join _
      (fun g hg => chunkLoop_groups maxTokens (splitNl text) [] 0 g hg),
    chunkLoop_join, List.nil_append, joinNl_splitNl]

/-- Witness for C9 on a concrete three-line text with bound 5. -/
theorem chunkText_lossless_witness :
    0 < 5 ∧ joinNl (chunkText chunkDemoText 5) = chunkDemoText :=
  ⟨by decide, chunkText_lossless chunkDemoText 5 (by decide)⟩

/-- Helper for C7: if some file in the list is a manifest file, the
    analyse loop exits with the full-run flag and a reason, whatever the
    accumulator value is. -/
theorem analyseLoop_full (mm : List (String × ManifestEntry)) :
    ∀ (files : List ChangedFile) (acc : AnalyseResult),
      (∃ f ∈ files, MANIFEST_FILES_test f.path = true) →
      (analyseLoop mm files acc).needsFullRun = true ∧
        (analyseLoop mm files acc).fullRunReason ≠ none := by
  intro files
  induction files with
  | nil =>
      intro acc h
      rcases h with ⟨f, hf, _⟩
      simp at hf
  | cons f rest ih =>
      intro acc h
      by_cases ht : MANIFEST_FILES_test f.path
      · simp [analyseLoop, ht]
      · rcases h with ⟨g, hg, hgt⟩
        rcases List.mem_cons.mp hg with rfl | hg2
        · exact absurd hgt ht
        · simpa [analyseLoop, ht] using
            ih (processChangedFile mm acc f) ⟨g, hg2, hgt⟩

/-- C7: a changed-file list containing at least one well-known
    manifest/dependency filename makes analyseChanges return
    needsFullRun = true with a non-null reason string, regardless of the
    other entries. -/
theorem analyse_manifest_file_forces_full_run
    (changedFiles : List ChangedFile) (fileManifest : List ManifestEntry)
    (h : ∃ f ∈ changedFiles, MANIFEST_FILES_test f.path = true) :
    (analyseChanges changedFiles fileManifest).needsFullRun = true ∧
      (analyseChanges changedFiles fileManifest).fullRunReason ≠ none := by
  have hr := analyseLoop_full
    (jsMapOfList (fileManifest.map (fun f => (f.path, f))))
    changedFiles analyseInit h
  have hsel : analyseChanges changedFiles fileManifest
      = analyseLoop (jsMapOfList (fileManifest.map (fun f => (f.path, f))))
          changedFiles analyseInit := by
    unfold analyseChanges
    simp only [hr.1, if_true]
  rw [hsel]
  exact hr

/-- Witness for C7: a push touching src/app.js and package.json is
    escalated to a full run. -/
theorem analyse_manifest_file_forces_full_run_witness :
    (analyseChanges changedDemo []).needsFullRun = true ∧
      (analyseChanges changedDemo []).fullRunReason ≠ none :=
  analyse_manifest_file_forces_full_run changedDemo [] (by decide)

/-- Helper: jsMapInsert keeps the key list when the key is present and
    appends it otherwise. -/
theorem keys_jsMapInsert {α : Type} (m : List (String × α)) (k : String)
    (v : α) :
    (jsMapInsert m k v).map (·.1)
      = if jsMapHas m k then m.map (·.1) else m.map (·.1) ++ [k] := by
  unfold jsMapInsert jsMapHas
  by_cases h : m.any (fun p => p.1 == k)
  · rw [if_pos h, if_pos h, List.map_map]
    apply List.map_congr_left
    intro p hp
    by_cases hk : p.1 == k
    · simp only [Function.comp, if_pos hk]
      exact (eq_of_beq hk).symm
    · simp [Function.comp, hk]
  · rw [if_neg h, if_neg h, List.map_append]
    simp

/-- Helper: jsMapInsert preserves key-list uniqueness. -/
theorem nodup_keys_jsMapInsert {α : Type} (m : List (String × α))
    (k : String) (v : α) (hnd : (m.map (·.1)).Nodup) :
    ((jsMapInsert m k v).map (·.1)).Nodup := by
  rw [keys_jsMapInsert]
  by_cases h : jsMapHas m k
  · simpa [h] using hnd
  · rw [if_neg h]
    have hk : k ∉ m.map (·.1) := by
      intro hmem
      rcases List.mem_map.mp hmem with ⟨p, hp, hpk⟩
      exact h (List.any_eq_true.mpr ⟨p, hp, by simp [hpk]⟩)
    exact hnd.append (List.nodup_singleton k)
      (fun a ha hb => hk ((List.mem_singleton.mp hb) ▸ ha))

/-- Helper: a JS Map has pairwise-distinct keys. -/
theorem nodup_keys_jsMapOfList {α : Type} (l : List (String × α)) :
    ((jsMapOfList l).map (·.1)).Nodup := by
  have h : ∀ (ll : List (String × α)) (m : List (String × α)),
      (m.map (·.1)).Nodup →
      ((ll.foldl (fun m p => jsMapInsert m p.1 p.2) m).map (·.1)).Nodup := by
    intro ll
    induction ll with
    | nil => intro m hm; exact hm
    | cons p t ih =>
        intro m hm
        exact ih _ (nodup_keys_jsMapInsert _ _ _ hm)
  exact h l [] (by simp)

/-- Helper: a key outside the key list is not found. -/
theorem jsMapGet_eq_none_of_not_mem {α : Type} (m : List (String × α))
    (k : String) (h : k ∉ m.map (·.1)) : jsMapGet m k = none := by
  unfold jsMapGet
  have hfind : m.find? (fun p => p.1 == k) = none := by
    apply List.find?_eq_none.mpr
    intro x hx hbeq
    exact h (List.mem_map.mpr ⟨x, hx, eq_of_beq hbeq⟩)
  simp [hfind]

/-- Helper: `Map.has` agrees with `Map.get` being defined. -/
theorem jsMapHas_eq_isSome {α : Type} (m : List (String × α))
    (k : String) : jsMapHas m k = (jsMapGet m k).isSome := by
  unfold jsMapHas jsMapGet
  induction m with
  | nil => rfl
  | cons p t ih =>
      by_cases h : p.1 == k
      · simp [List.any_cons, h, List.find?]
      · simp [List.any_cons, h, List.find?, ih]

/-- Helper: on a list with unique keys, the multiplicity of a path among
    the keys of the filtered entries is decided by the unique binding of
    that path. -/
theorem count_filter_map_fst {α : Type} (c : String × α → Bool) :
    ∀ (L : List (String × α)), (L.map (·.1)).Nodup → ∀ p : String,
      ((L.filter c).map (·.1)).count p
        = (match jsMapGet L p with
           | some v => if c (p, v) then 1 else 0
           | none => 0) := by
  intro L
  induction L with
  | nil => intro _ p; simp [jsMapGet]
  | cons hd rest ih =>
      intro hnd p
      obtain ⟨k, v⟩ := hd
      have hnd1 : k ∉ rest.map (·.1) ∧ (rest.map (·.1)).Nodup := by
        have h2 := hnd
        simp only [List.map_cons] at h2
        exact List.nodup_cons.mp h2
      by_cases hp : p = k
      · subst hp
        have hrestnone : jsMapGet rest p = none :=
          jsMapGet_eq_none_of_not_mem rest p hnd1.1
        have hget : jsMapGet ((p, v) :: rest) p = some v := by
          simp [jsMapGet, List.find?]
        rw [hget]
        have hrest0 : ((rest.filter c).map (·.1)).count p = 0 := by
          rw [ih hnd1.2 p, hrestnone]
        by_cases hc : c (p, v) <;>
          simp [List.filter_cons, hc, List.count_cons, hrest0]
      · have hkp : (k == p) = false :=
          beq_eq_false_iff_ne.mpr (fun h => hp h.symm)
        have hget : jsMapGet ((k, v) :: rest) p = jsMapGet rest p := by
          simp [jsMapGet, List.find?, hkp]
        rw [hget]
        by_cases hc : c (k, v) <;>
          simp [List.filter_cons, hc, List.count_cons, hkp, ih hnd1.2 p]

/-- Helper: the first computeFileDiff loop routes each current-map entry
    into exactly one of added / modified / unchanged according to the
    manifest lookup. -/
theorem classify_fold_spec (mm : List (String × ManifestEntry)) :
    ∀ (L : List (String × TreeFile))
      (A M : List AddedEntry) (U : List UnchangedEntry),
      L.foldl (classifyStep mm) (A, M, U)
        = (A ++ (L.filter (fun pc => (jsMapGet mm pc.1).isNone)).map
              (fun pc => (⟨pc.1, pc.2.sha, "added"⟩ : AddedEntry)),
           M ++ (L.filter (fun pc =>
              match jsMapGet mm pc.1 with
              | some s => decide (s.sha ≠ pc.2.sha)
              | none => false)).map
              (fun pc => (⟨pc.1, pc.2.sha, "modified"⟩ : AddedEntry)),
           U ++ (L.filter (fun pc =>
              match jsMapGet mm pc.1 with
              | some s => decide (s.sha = pc.2.sha)
              | none => false)).map
              (fun pc => (⟨pc.1⟩ : UnchangedEntry))) := by
  intro L
  induction L with
  | nil => intro A M U; simp
  | cons pc t ih =>
      intro A M U
      obtain ⟨path, cur⟩ := pc
      simp only [List.foldl_cons]
      cases hm : jsMapGet mm path with
      | none =>
          rw [show classifyStep mm (A, M, U) (path, cur)
              = (A ++ [⟨path, cur.sha, "added"⟩], M, U) from by
            simp [classifyStep, hm]]
          rw [ih]
          simp [List.filter_cons, hm]
      | some stored =>
          by_cases hsha : stored.sha ≠ cur.sha
          · rw [show classifyStep mm (A, M, U) (path, cur)
                = (A, M ++ [⟨path, cur.sha, "modified"⟩], U) from by
              simp [classifyStep, hm, hsha]]
            rw [ih]
            simp [List.filter_cons, hm, hsha]
          · have heq : stored.sha = cur.sha := not_not.mp hsha
            rw [show classifyStep mm (A, M, U) (path, cur)
                = (A, M, U ++ [⟨path⟩]) from by
              simp [classifyStep, hm, hsha]]
            rw [ih]
            simp [List.filter_cons, hm, hsha, heq]

/-- Helper: the second computeFileDiff loop collects exactly the
    manifest entries whose path is absent from the current map. -/
theorem removed_fold_spec (cm : List (String × TreeFile)) :
    ∀ (L : List (String × ManifestEntry)) (acc : List RemovedEntry),
      L.foldl (fun acc pm =>
          if jsMapHas cm pm.1 then acc
          else acc ++ [(⟨pm.1, "removed"⟩ : RemovedEntry)]) acc
        = acc ++ (L.filter (fun pm => !(jsMapHas cm pm.1))).map
            (fun pm => (⟨pm.1, "removed"⟩ : RemovedEntry)) := by
  intro L
  induction L with
  | nil => intro acc; simp
  | cons pm t ih =>
      intro acc
      simp only [List.foldl_cons]
      by_cases h : jsMapHas cm pm.1
      · rw [if_pos h, ih]
        simp [List.filter_cons, h]
      · rw [if_neg h, ih]
        simp [List.filter_cons, h]

/-- C4: computeFileDiff classifies each path into exactly one category.
    For every stored manifest, fresh tree and path: the path appears in
    `added` exactly when it is an eligible fresh path absent from the
    manifest; in `modified` exactly when both sides hold it with
    differing content SHAs; in `unchanged` exactly when both hold it
    with equal SHAs; in `removed` exactly when only the manifest holds
    it — in each case with multiplicity one and multiplicity zero in the
    other buckets.  The spec scenario (manifest {a.js: h1, b.js: h2},
    fresh {a.js: h1, b.js: h3, c.js: h4}) yields modified=[b.js],
    added=[c.js], removed=[]. -/
theorem computeFileDiff_classification :
    (∀ (storedManifest : List ManifestEntry)
       (currentTree : List TreeFile) (p : String),
      (((computeFileDiff storedManifest currentTree).added.map
            (fun e => e.path)).count p
          = match jsMapGet (diffCurrentMap currentTree) p,
                  jsMapGet (diffManifestMap storedManifest) p with
            | some _, none => 1
            | _, _ => 0) ∧
      (((computeFileDiff storedManifest currentTree).modified.map
            (fun e => e.path)).count p
          = match jsMapGet (diffCurrentMap currentTree) p,
                  jsMapGet (diffManifestMap storedManifest) p with
            | some cur, some stored =>
                if stored.sha ≠ cur.sha then 1 else 0
            | _, _ => 0) ∧
      (((computeFileDiff storedManifest currentTree).unchanged.map
            (fun e => e.path)).count p
          = match jsMapGet (diffCurrentMap currentTree) p,
                  jsMapGet (diffManifestMap storedManifest) p with
            | some cur, some stored =>
                if stored.sha = cur.sha then 1 else 0
            | _, _ => 0) ∧
      (((computeFileDiff storedManifest currentTree).removed.map
            (fun e => e.path)).count p
          = match jsMapGet (diffCurrentMap currentTree) p,
                  jsMapGet (diffManifestMap storedManifest) p with
            | none, some _ => 1
            | _, _ => 0)) ∧
    computeFileDiff scenarioManifest scenarioTree
      = { added := [⟨"c.js", "h4", "added"⟩],
          modified := [⟨"b.js", "h3", "modified"⟩],
          removed := [],
          unchanged := [⟨"a.js"⟩],
          currentTree := scenarioTree } := by
  constructor
  · intro storedManifest currentTree p
    have hndc : ((diffCurrentMap currentTree).map (·.1)).Nodup :=
      nodup_keys_jsMapOfList _
    have hndm : ((diffManifestMap storedManifest).map (·.1)).Nodup :=
      nodup_keys_jsMapOfList _
    have hd : computeFileDiff storedManifest currentTree
        = { added := ((diffCurrentMap currentTree).filter
              (fun pc => (jsMapGet (diffManifestMap storedManifest)
                  pc.1).isNone)).map
              (fun pc => ⟨pc.1, pc.2.sha, "added"⟩),
            modified := ((diffCurrentMap currentTree).filter
              (fun pc =>
                match jsMapGet (diffManifestMap storedManifest) pc.1 with
                | some s => decide (s.sha ≠ pc.2.sha)
                | none => false)).map
              (fun pc => ⟨pc.1, pc.2.sha, "modified"⟩),
            removed := ((diffManifestMap storedManifest).filter
              (fun pm => !(jsMapHas (diffCurrentMap currentTree)
                  pm.1))).map
              (fun pm => ⟨pm.1, "removed"⟩),
            unchanged := ((diffCurrentMap currentTree).filter
              (fun pc =>
                match jsMapGet (diffManifestMap storedManifest) pc.1 with
                | some s => decide (s.sha = pc.2.sha)
                | none => false)).map
              (fun pc => ⟨pc.1⟩),
            currentTree := eligibleFiles currentTree } := by
      simp only [computeFileDiff]
      rw [classify_fold_spec, removed_fold_spec]
      simp
    have hadd : (computeFileDiff storedManifest currentTree).added
        = ((diffCurrentMap currentTree).filter
            (fun pc => (jsMapGet (diffManifestMap storedManifest)
                pc.1).isNone)).map
            (fun pc => ⟨pc.1, pc.2.sha, "added"⟩) := by rw [hd]
    have hmod : (computeFileDiff storedManifest currentTree).modified
        = ((diffCurrentMap currentTree).filter
            (fun pc =>
              match jsMapGet (diffManifestMap storedManifest) pc.1 with
              | some s => decide (s.sha ≠ pc.2.sha)
              | none => false)).map
            (fun pc => ⟨pc.1, pc.2.sha, "modified"⟩) := by rw [hd]
    have hunch : (computeFileDiff storedManifest currentTree).unchanged
        = ((diffCurrentMap currentTree).filter
            (fun pc =>
              match jsMapGet (diffManifestMap storedManifest) pc.1 with
              | some s => decide (s.sha = pc.2.sha)
              | none => false)).map
            (fun pc => ⟨pc.1⟩) := by rw [hd]
    have hrem : (computeFileDiff storedManifest currentTree).removed
        = ((diffManifestMap storedManifest).filter
            (fun pm => !(jsMapHas (diffCurrentMap currentTree)
                pm.1))).map
            (fun pm => ⟨pm.1, "removed"⟩) := by rw [hd]
    refine ⟨?_, ?_, ?_, ?_⟩
    · rw [hadd, List.map_map]
      show (((diffCurrentMap currentTree).filter
          (fun pc => (jsMapGet (diffManifestMap storedManifest)
              pc.1).isNone)).map (·.1)).count p = _
      rw [count_filter_map_fst _ _ hndc]
      cases hc : jsMapGet (diffCurrentMap currentTree) p <;>
        cases hm2 : jsMapGet (diffManifestMap storedManifest) p <;>
        simp [hm2]
    · rw [hmod, List.map_map]
      show (((diffCurrentMap currentTree).filter
          (fun pc =>
            match jsMapGet (diffManifestMap storedManifest) pc.1 with
            | some s => decide (s.sha ≠ pc.2.sha)
            | none => false)).map (·.1)).count p = _
      rw [count_filter_map_fst _ _ hndc]
      cases hc : jsMapGet (diffCurrentMap currentTree) p <;>
        cases hm2 : jsMapGet (diffManifestMap storedManifest) p <;>
        simp [hm2]
    · rw [hunch, List.map_map]
      show (((diffCurrentMap currentTree).filter
          (fun pc =>
            match jsMapGet (diffManifestMap storedManifest) pc.1 with
            | some s => decide (s.sha = pc.2.sha)
            | none => false)).map (·.1)).count p = _
      rw [count_filter_map_fst _ _ hndc]
      cases hc : jsMapGet (diffCurrentMap currentTree) p <;>
        cases hm2 : jsMapGet (diffManifestMap storedManifest) p <;>
        simp [hm2]
    · rw [hrem, List.map_map]
      show (((diffManifestMap storedManifest).filter
          (fun pm => !(jsMapHas (diffCurrentMap currentTree)
              pm.1))).map (·.1)).count p = _
      rw [count_filter_map_fst _ _ hndm]
      cases hc : jsMapGet (diffCurrentMap currentTree) p <;>
        cases hm2 : jsMapGet (diffManifestMap storedManifest) p <;>
        simp [jsMapHas_eq_isSome, hc]
  · decide

/-- C3 counterexample: on a findings set containing a severity outside
    the four known values the two scorings disagree — the from-scratch
    agent deducts the default 2 per unknown severity, recomputeSecurity
    deducts 0 — so the claimed equality for every findings set fails. -/
theorem security_recompute_counterexample :
    recomputeScore [weirdFinding] = 100 ∧ agentScore [weirdFinding] = 98 ∧
      recomputeScore [weirdFinding] ≠ agentScore [weirdFinding] := by
  refine ⟨?_, ?_, ?_⟩ <;> decide

/-- Helper: a fold of added weights equals the sum of mapped weights. -/
theorem foldl_add_eq_sum (w : Finding → Int) (l : List Finding) :
    ∀ s : Int, l.foldl (fun acc f => acc + w f) s = s + (l.map w).sum := by
  induction l with
  | nil => intro s; simp
  | cons f t ih =>
      intro s
      simp only [List.foldl_cons, List.map_cons, List.sum_cons, ih]
      ring

/-- C3 (amended): for findings sets whose severities all lie in
    CRITICAL/HIGH/MEDIUM/LOW, the incremental recompute over the full
    merged findings set and the from-scratch security-auditor scoring
    agree on score, grade and per-severity counts, and the common score
    is max(0, 100 - sum of the severity weights 25/15/7/2). -/
theorem security_recompute_matches_agent
    (findings : List Finding)
    (h : ∀ f ∈ findings, f.severity = "CRITICAL" ∨ f.severity = "HIGH"
        ∨ f.severity = "MEDIUM" ∨ f.severity = "LOW") :
    recomputeScore findings = agentScore findings ∧
    gradeOf (recomputeScore findings) = gradeOf (agentScore findings) ∧
    recomputeCounts findings = agentCounts findings ∧
    recomputeScore findings
      = max 0 (100 - (findings.map
          (fun f => (WEIGHT f.severity).getD 0)).sum) := by
  have hmapeq : findings.map (fun f => (WEIGHT f.severity).getD 0)
      = findings.map (fun f => (SEVERITY_WEIGHT f.severity).getD 2) := by
    apply List.map_congr_left
    intro f hf
    rcases h f hf with h1 | h1 | h1 | h1 <;> rw [h1] <;> rfl
  have hded : recomputeDeduction findings = agentDeduction findings := by
    unfold recomputeDeduction agentDeduction
    rw [foldl_add_eq_sum, foldl_add_eq_sum, hmapeq]
  have hscore : recomputeScore findings = agentScore findings := by
    unfold recomputeScore agentScore
    rw [hded]
  refine ⟨hscore, by rw [hscore], rfl, ?_⟩
  unfold recomputeScore recomputeDeduction
  rw [foldl_add_eq_sum]
  simp

/-- Witness for the amended C3 on a concrete known-severity set. -/
theorem security_recompute_matches_agent_witness :
    recomputeScore knownFindings = agentScore knownFindings :=
  (security_recompute_matches_agent knownFindings (by decide)).1

/-- Helper: the window sum only shrinks as the clock advances. -/
theorem tokensUsedInWindow_mono (log : List LedgerEntry) (t1 t2 : Nat)
    (h : t1 ≤ t2) :
    tokensUsedInWindow t2 log ≤ tokensUsedInWindow t1 log := by
  unfold tokensUsedInWindow
  induction log with
  | nil => simp
  | cons e rest ih =>
      by_cases h2 : t2 - TPM_WINDOW_MS ≤ e.ts
      · have h1 : t1 - TPM_WINDOW_MS ≤ e.ts :=
          le_trans (Nat.sub_le_sub_right h _) h2
        simp only [List.filter_cons, h1, h2, decide_True, List.map_cons,
          List.sum_cons]
        exact Nat.add_le_add_left ih _
      · by_cases h1 : t1 - TPM_WINDOW_MS ≤ e.ts
        · simp only [List.filter_cons, h1, h2, decide_True, decide_False,
            List.map_cons, List.sum_cons]
          exact le_trans ih (Nat.le_add_left _ _)
        · simp only [List.filter_cons, h1, h2, decide_False]
          exact ih

/-- Helper: appending one ledger entry adds its cost exactly when it is
    inside the window. -/
theorem tokensUsedInWindow_append (t : Nat) (log : List LedgerEntry)
    (e : LedgerEntry) :
    tokensUsedInWindow t (log ++ [e])
      = tokensUsedInWindow t log
        + (if t - TPM_WINDOW_MS ≤ e.ts then e.tokens else 0) := by
  unfold tokensUsedInWindow
  rw [List.filter_append]
  by_cases h : t - TPM_WINDOW_MS ≤ e.ts
  · have h2 : t ≤ e.ts + TPM_WINDOW_MS := by omega
    simp [List.filter_cons, h, h2]
  · have h2 : ¬t ≤ e.ts + TPM_WINDOW_MS := by omega
    simp [List.filter_cons, h, h2]

/-- C2 counterexample: the claimed invariant fails on the code as
    written.  Two calls with estimated cost 2000 are both admitted (the
    estimate guard stays at or below 5000), but the service reports an
    actual usage of 3000 for each, and executeCall records the reported
    actual cost — so a reachable ledger carries 6000 tokens inside one
    62 s window, exceeding TPM_LIMIT = 5000. -/
theorem arbiter_window_overrun_counterexample :
    ArbTrace (fun _ _ => True) 0 [⟨3000, 0⟩, ⟨3000, 0⟩] ∧
      TPM_LIMIT < tokensUsedInWindow 0 [⟨3000, 0⟩, ⟨3000, 0⟩] := by
  constructor
  · have h1 : ArbTrace (fun _ _ => True) 0 ([] ++ [⟨3000, 0⟩]) :=
      ArbTrace.call 2000 3000 0 0 ArbTrace.init (le_refl 0) (le_refl 0)
        (by decide) trivial
    have h2 : ArbTrace (fun _ _ => True) 0
        (([] ++ [⟨3000, 0⟩]) ++ [⟨3000, 0⟩]) :=
      ArbTrace.call 2000 3000 0 0 h1 (le_refl 0) (le_refl 0)
        (by decide) trivial
    simpa using h2
  · decide

/-- C2 (amended): admission is guarded — a call executes only at an
    instant where the window consumption plus its estimated cost stays
    within TPM_LIMIT, waiting otherwise — and in every run in which each
    recorded actual cost is at most its estimate, the sum of costs in
    the trailing 62 s window never exceeds TPM_LIMIT at any instant. -/
theorem arbiter_window_invariant (now : Nat) (log : List LedgerEntry)
    (h : ArbTrace (fun a e => a ≤ e) now log) :
    ∀ t, now ≤ t → tokensUsedInWindow t log ≤ TPM_LIMIT := by
  induction h with
  | init =>
      intro t ht
      simp [tokensUsedInWindow]
  | wait t2 htr hle ih =>
      intro t ht
      exact ih t (le_trans hle ht)
  | call est actual tAdmit tRec htr h1 h2 hguard hok ih =>
      intro t ht
      rw [tokensUsedInWindow_append]
      rename_i nowPrev logPrev
      have hmono : tokensUsedInWindow t logPrev
          ≤ tokensUsedInWindow tAdmit logPrev :=
        tokensUsedInWindow_mono logPrev tAdmit t (le_trans h2 ht)
      by_cases hw : t - TPM_WINDOW_MS ≤ tRec
      · simp only [if_pos hw]
        calc tokensUsedInWindow t logPrev + actual
            ≤ tokensUsedInWindow tAdmit logPrev + est :=
              Nat.add_le_add hmono hok
          _ ≤ TPM_LIMIT := hguard
      · simp only [if_neg hw, Nat.add_zero]
        exact le_trans hmono
          (le_trans (Nat.le_add_right _ est) hguard)

/-- Witness for the amended C2: a single admitted call with estimate 100
    and reported usage 90 keeps the window at or under the limit. -/
theorem arbiter_window_invariant_witness :
    tokensUsedInWindow 0 ([] ++ [⟨90, 0⟩]) ≤ TPM_LIMIT :=
  arbiter_window_invariant 0 ([] ++ [⟨90, 0⟩])
    (ArbTrace.call 100 90 0 0 ArbTrace.init (le_refl 0) (le_refl 0)
      (by decide) (by decide))
    0 (le_refl 0)

/-- C10: when the configured webhook secret is absent (undefined) or
    empty, validateWebhookSignature returns true for every payload,
    every signature value and every HMAC implementation: signature
    validation is skipped entirely. -/
theorem webhook_validation_skipped_without_secret
    (hmacSha256Hex : String → String → String)
    (payload signatureValue : String) :
    validateWebhookSignature hmacSha256Hex payload signatureValue none
        = true ∧
      validateWebhookSignature hmacSha256Hex payload signatureValue
        (some "") = true := by
  constructor
  · rfl
  · simp [validateWebhookSignature]

end DocNine
